import Mathlib

/-!
Verification of the provider-rotation-and-auto-fix-loop controller of
`code_writer.py`.

The development shallowly embeds the Python source into Lean:

* Python string primitives (`str.strip`, `str.splitlines`, the `in`
  operator, `textwrap.dedent`, the code-fence regular expression) are
  modelled as executable functions over `List Char`.  `str.strip` and
  `str.splitlines` use Python's Unicode whitespace and line-boundary
  character sets.
* The pure functions of the source (`extract_code_blocks`, `make_stub`,
  `is_stub`, `rotate_providers_order`, `run_checks`,
  `refine_with_feedback`, `generate_with_rotation`) are translated
  directly; external effects (provider SDK calls, subprocess runs) become
  oracle parameters carrying the values the call sites observe.
* The auto-fix `while` loop of `main` becomes a recursion on the
  remaining iteration budget; an exception that the Python code would not
  catch is modelled as a `crashed` outcome.
-/

/-- Python Unicode whitespace as used by `str.strip` / `str.lstrip`. -/
def isPyWs (c : Char) : Bool :=
  c = ' ' || c = '\t' || c = '\n' || c = '\r' || c = '\x0b' || c = '\x0c' ||
  c = '\x1c' || c = '\x1d' || c = '\x1e' || c = '\x1f' || c = '\x85' || c = '\xa0' ||
  c = ' ' || (0x2000 ≤ c.toNat && c.toNat ≤ 0x200a) || c = ' ' ||
  c = ' ' || c = ' ' || c = ' ' || c = '　'

/-- Python line-boundary characters as used by `str.splitlines`. -/
def isLineBoundary (c : Char) : Bool :=
  c = '\n' || c = '\r' || c = '\x0b' || c = '\x0c' || c = '\x1c' || c = '\x1d' ||
  c = '\x1e' || c = '\x85' || c = ' ' || c = ' '

/-- Python `str.lstrip()` on a character list. -/
def pyLstripL (l : List Char) : List Char := l.dropWhile isPyWs

/-- Python `str.rstrip()` on a character list. -/
def pyRstripL (l : List Char) : List Char := ((l.reverse).dropWhile isPyWs).reverse

/-- Python `str.strip()` on a character list. -/
def pyStripL (l : List Char) : List Char := pyLstripL (pyRstripL l)

/-- Python `str.strip()`. -/
def pyStrip (s : String) : String := String.mk (pyStripL s.data)

/-- Python `str.rstrip()`. -/
def pyRstrip (s : String) : String := String.mk (pyRstripL s.data)

/-- Split off the first line: the characters before the first line boundary,
and the remainder after that boundary (a `\r\n` pair counts as one
boundary), following Python `str.splitlines`. -/
def splitLine : List Char → List Char × List Char
  | [] => ([], [])
  | c :: rest =>
    if c = '\r' ∧ rest.head? = some '\n' then ([], rest.tail)
    else if isLineBoundary c then ([], rest)
    else
      let p := splitLine rest
      (c :: p.1, p.2)

theorem splitLine_snd_le (cs : List Char) : (splitLine cs).2.length ≤ cs.length := by
  induction cs with
  | nil => simp [splitLine]
  | cons c rest ih =>
    simp only [splitLine]
    split
    · show rest.tail.length ≤ (c :: rest).length
      exact Nat.le_trans (by cases rest <;> simp) (Nat.le_succ rest.length)
    · split
      · show rest.length ≤ (c :: rest).length
        exact Nat.le_succ rest.length
      · show (splitLine rest).2.length ≤ (c :: rest).length
        exact Nat.le_succ_of_le ih

theorem splitLine_snd_lt (c : Char) (rest : List Char) :
    (splitLine (c :: rest)).2.length < (c :: rest).length := by
  simp only [splitLine]
  split
  · show rest.tail.length < (c :: rest).length
    exact Nat.lt_succ_of_le (by cases rest <;> simp)
  · split
    · show rest.length < (c :: rest).length
      exact Nat.lt_succ_self rest.length
    · show (splitLine rest).2.length < (c :: rest).length
      exact Nat.lt_succ_of_le (splitLine_snd_le rest)

/-- Fuel-driven worker for `splitlinesL`. -/
def splitlinesGo : Nat → List Char → List (List Char)
  | _, [] => []
  | 0, _ :: _ => []
  | fuel+1, c :: rest =>
    let p := splitLine (c :: rest)
    p.1 :: splitlinesGo fuel p.2

theorem splitlinesGo_congr :
    ∀ (f g : Nat) (cs : List Char), cs.length ≤ f → cs.length ≤ g →
      splitlinesGo f cs = splitlinesGo g cs := by
  intro f
  induction f with
  | zero =>
    intro g cs hf _
    have : cs = [] := List.eq_nil_of_length_eq_zero (Nat.le_zero.mp hf)
    subst this
    cases g <;> simp [splitlinesGo]
  | succ f ih =>
    intro g cs hf hg
    cases cs with
    | nil => cases g <;> simp [splitlinesGo]
    | cons c rest =>
      cases g with
      | zero => exact absurd hg (by simp)
      | succ g =>
        simp only [splitlinesGo]
        have hlt := splitLine_snd_lt c rest
        exact congrArg _ (ih g _ (Nat.le_of_lt_succ (Nat.lt_of_lt_of_le hlt hf))
          (Nat.le_of_lt_succ (Nat.lt_of_lt_of_le hlt hg)))

/-- Python `str.splitlines()` on a character list. -/
def splitlinesL (cs : List Char) : List (List Char) := splitlinesGo cs.length cs

theorem splitlinesL_nil : splitlinesL [] = [] := rfl

theorem splitlinesL_cons (c : Char) (rest : List Char) :
    splitlinesL (c :: rest) =
      (splitLine (c :: rest)).1 :: splitlinesL (splitLine (c :: rest)).2 := by
  simp only [splitlinesL, List.length_cons, splitlinesGo]
  exact congrArg _ (splitlinesGo_congr _ _ _
    (Nat.le_of_lt_succ (splitLine_snd_lt c rest)) (Nat.le_refl _))

/-- Python `"\n".join(lines)` on character lists. -/
def joinLinesL : List (List Char) → List Char
  | [] => []
  | [a] => a
  | a :: b :: rest => a ++ '\n' :: joinLinesL (b :: rest)

/-- Python substring test (the `in` operator) on character lists. -/
def containsSub : List Char → List Char → Bool
  | [], needle => needle.isEmpty
  | c :: t, needle => needle.isPrefixOf (c :: t) || containsSub t needle

/-- Python substring test (the `in` operator): `strContains hay needle`. -/
def strContains (hay needle : String) : Bool := containsSub hay.data needle.data

/-- ASCII lower-casing, modelling the effect of `re.IGNORECASE` on the
letters of the fence pattern. -/
def lowerAscii (c : Char) : Char :=
  if 'A' ≤ c ∧ c ≤ 'Z' then Char.ofNat (c.toNat + 32) else c

/-- Lazy scan of the regex tail `(.*?)` + closing triple backtick: the text up
to the earliest closing fence, or `none` when the fence never closes. -/
def scanClose : List Char → Option (List Char)
  | [] => none
  | c :: t =>
    if ("```".data).isPrefixOf (c :: t) then some []
    else (scanClose t).map (fun g => c :: g)

/-- Attempt of the fence regex at the head of `cs`: triple backtick, an
optional case-insensitive `python` tag (tried first, as the regex engine
does), a newline, then the lazily captured group up to the closing triple
backtick. -/
def matchFenceAt (cs : List Char) : Option (List Char) :=
  if ("```".data).isPrefixOf cs then
    let rest := cs.drop 3
    let pyBranch : Option (List Char) :=
      if (rest.take 6).map lowerAscii = "python".data ∧
          (rest.drop 6).head? = some '\n' then
        scanClose (rest.drop 6).tail
      else none
    match pyBranch with
    | some g => some g
    | none => if rest.head? = some '\n' then scanClose rest.tail else none
  else none

/-- Leftmost search of the fence regex `_CODE_FENCE`, returning the captured
group of the first match. -/
def fenceSearch : List Char → Option (List Char)
  | [] => none
  | c :: t =>
    match matchFenceAt (c :: t) with
    | some g => some g
    | none => fenceSearch t

/-- The leading tokens recognized by `extract_code_blocks`' trimming loop. -/
def leadTokens : List String :=
  ["import ", "from ", "def ", "class ", "#", "#!", "if __name__"]

/-- Python `line.startswith(tuple)` for the recognized leading tokens. -/
def startsWithTokenL (l : List Char) : Bool :=
  leadTokens.any (fun t => t.data.isPrefixOf l)

/-- Embedding of `extract_code_blocks` (src/code_writer.py:152-160): take the
first fenced block if any, else the whole text; strip it; drop leading lines
until one starts (after `lstrip`) with a recognized token; re-join and strip. -/
def extract_code_blocks (text : String) : String :=
  let snippet :=
    pyStripL (match fenceSearch text.data with
      | some g => g
      | none => text.data)
  let lines := splitlinesL snippet
  let kept := lines.dropWhile (fun l => !(startsWithTokenL (pyLstripL l)))
  String.mk (pyStripL (joinLinesL kept))

/-- Embedding of `make_stub` (src/code_writer.py:359-373): Python `note or
default` treats both `None` and the empty string as missing; newlines in the
note are replaced by spaces. -/
def make_stub (note : Option String) : String :=
  let base :=
    match note with
    | none => "Stub fallback generated by ai-code-writer."
    | some s => if s = "" then "Stub fallback generated by ai-code-writer." else s
  let note_line := String.mk (base.data.map (fun c => if c = '\n' then ' ' else c))
  "#!/usr/bin/env python3\n'''\n" ++ note_line ++
    "\n'''\n\ndef main() -> None:\n    # TODO: replace stub with real implementation\n    print('STUB')\n\nif __name__ == '__main__':\n    main()\n"

/-- Embedding of `is_stub` (src/code_writer.py:496-497). -/
def is_stub (code : String) : Bool :=
  strContains code "print('STUB')" || strContains code "Stub fallback"

/-- The canonical provider order used inside `rotate_providers_order`. -/
def canonical_providers : List String := ["gemini", "openai", "anthropic"]

/-- Embedding of `rotate_providers_order` (src/code_writer.py:500-505):
`list.remove` deletes the first occurrence, then the preferred provider is
prepended. -/
def rotate_providers_order (primary : String) : List String :=
  if primary ∈ canonical_providers then
    primary :: canonical_providers.erase primary
  else canonical_providers

/-- Python `text.split(chr(10))` on a character list (always nonempty). -/
def splitOnNl : List Char → List (List Char)
  | [] => [[]]
  | c :: t =>
    if c = '\n' then [] :: splitOnNl t
    else
      match splitOnNl t with
      | [] => [[c]]
      | l :: ls => (c :: l) :: ls

/-- A line of only spaces and tabs, as matched by `textwrap.dedent`'s
whitespace-only pattern, is normalized to an empty line. -/
def dedentNormLine (l : List Char) : List Char :=
  if !l.isEmpty && l.all (fun c => c == ' ' || c == '\t') then [] else l

/-- The leading run of spaces and tabs of a line. -/
def leadWsOf (l : List Char) : List Char := l.takeWhile (fun c => c == ' ' || c == '\t')

/-- Longest common starting run of two character lists. -/
def sharedStart : List Char → List Char → List Char
  | [], _ => []
  | _ :: _, [] => []
  | a :: xs, b :: ys => if a = b then a :: sharedStart xs ys else []

/-- The common margin `textwrap.dedent` removes. -/
def pyDedentMargin (ls : List (List Char)) : List Char :=
  match (ls.filter (fun l => !l.isEmpty)).map leadWsOf with
  | [] => []
  | i :: rest => rest.foldl sharedStart i

/-- Embedding of `textwrap.dedent`: whitespace-only lines are blanked, the
common space/tab margin of the remaining lines is removed from every line
that starts with it. -/
def pyDedent (s : String) : String :=
  let ls := (splitOnNl s.data).map dedentNormLine
  let margin := pyDedentMargin ls
  let ls2 := ls.map (fun l =>
    if !margin.isEmpty && margin.isPrefixOf l then l.drop margin.length else l)
  String.mk (joinLinesL ls2)

/-- The f-string fed to `textwrap.dedent` in `refine_with_feedback`
(src/code_writer.py:475-489), with the interpolations spliced in. -/
def feedback_template (current_code diagnostics : String) : String :=
  "\n        You previously wrote this Python file:\n\n        ```python\n        " ++
    current_code ++
    "\n        ```\n\n        Tool diagnostics to fix:\n        " ++
    diagnostics ++
    "\n\n        Please return a corrected, COMPLETE single-file Python 3.11+ program that resolves these issues.\n        Only return one fenced Python code block.\n        "

/-- The refinement prompt: the dedented template, stripped. -/
def feedback_prompt (current_code diagnostics : String) : String :=
  pyStrip (pyDedent (feedback_template current_code diagnostics))

/-- The tail of `refine_with_feedback` (src/code_writer.py:490-492): extract
code from the provider reply, substituting a stub when extraction is empty. -/
def refine_reply (t : String) : String :=
  let code := extract_code_blocks t
  if code = "" then make_stub (some "Fix attempt produced no code.") else code

/-- Embedding of `refine_with_feedback` (src/code_writer.py:472-492).  The
provider's `generate` method is an oracle from prompt and token budget to the
reply text it returned. -/
def refine_with_feedback (generate : String → Nat → String) (current_code : String)
    (diagnostics : String) (max_tokens : Nat) : String :=
  refine_reply (generate (feedback_prompt current_code diagnostics) max_tokens)

/-- Outcome of the network call inside `OpenAIProvider.generate`: a reply
with `message.content` (possibly `None`), or a raised exception. -/
inductive NetOutcome
  | ok (content : Option String)
  | error
deriving DecidableEq

/-- Embedding of `OpenAIProvider.generate` (src/code_writer.py:309-320): a
successful call returns `content or ""`; any exception is caught and turned
into the stub `make_stub("OpenAI error.")`. -/
def openai_generate : NetOutcome → String
  | NetOutcome.ok content => content.getD ""
  | NetOutcome.error => make_stub (some "OpenAI error.")

/-- One provider attempt inside `generate_with_rotation`: an exception
anywhere in lookup, construction or generation (caught by the rotation), or
the reply text `provider.generate` returned. -/
inductive RotAttempt
  | exn
  | result (text : String)
deriving DecidableEq

/-- The code computed from one provider reply inside `generate_with_rotation`
(src/code_writer.py:521-523): extraction, with a stub substituted when it
comes back empty. -/
def attempt_code (t : String) : String :=
  let e := extract_code_blocks t
  if e = "" then make_stub (some "No code block extracted.") else e

/-- The rotation loop of `generate_with_rotation` (src/code_writer.py:513-531)
over the remaining providers, with the `last_code` accumulator. -/
def generate_rotation_go : List String → (String → RotAttempt) → String → String
  | [], _, last_code =>
    if last_code = "" then make_stub (some "All providers failed or returned stubs.")
    else last_code
  | p :: ps, att, last_code =>
    match att p with
    | RotAttempt.exn => generate_rotation_go ps att last_code
    | RotAttempt.result t =>
      let code := attempt_code t
      if is_stub code then generate_rotation_go ps att code else code

/-- Embedding of `generate_with_rotation` (src/code_writer.py:508-531): the
per-provider attempts are an oracle from provider name to attempt outcome. -/
def generate_with_rotation (primary : String) (att : String → RotAttempt) : String :=
  generate_rotation_go (rotate_providers_order primary) att ""

/-- The stub-marked codes seen along a rotation, in rotation order. -/
def stubs_seen (order : List String) (att : String → RotAttempt) : List String :=
  order.filterMap (fun p =>
    match att p with
    | RotAttempt.exn => none
    | RotAttempt.result t =>
      if is_stub (attempt_code t) then some (attempt_code t) else none)

/-- Embedding of `run_checks` (src/code_writer.py:433-469).  `syn` is the
`run_syntax_check` result; `flake` and `myp` are the `(returncode, stdout,
stderr)` triples of `run_flake8` and `run_mypy` (127 = tool missing,
src/code_writer.py:201-218). -/
def run_checks (syn : Bool × String) (do_lint : Bool) (flake : Int × String × String)
    (do_mypy : Bool) (myp : Int × String × String) : Bool × String :=
  let ok0 := syn.1
  let parts0 : List String := if syn.1 then [] else ["# syntax\n" ++ syn.2]
  let ok1 := if do_lint ∧ flake.1 ≠ 0 ∧ flake.1 ≠ 127 then false else ok0
  let parts1 := parts0 ++
    (if do_lint then
      (if flake.2.1 ≠ "" then ["# flake8\n" ++ flake.2.1] else []) ++
      (if flake.2.2 ≠ "" ∧ flake.1 ≠ 0 then ["# flake8-stderr\n" ++ flake.2.2] else []) ++
      (if flake.1 = 127 then
        ["# flake8\nflake8 not installed. Install with: pip install flake8\n"] else [])
    else [])
  let ok2 := if do_mypy ∧ myp.1 ≠ 0 ∧ myp.1 ≠ 127 then false else ok1
  let parts2 := parts1 ++
    (if do_mypy then
      (if myp.2.1 ≠ "" then ["# mypy\n" ++ myp.2.1] else []) ++
      (if myp.2.2 ≠ "" ∧ myp.1 ≠ 0 then ["# mypy-stderr\n" ++ myp.2.2] else []) ++
      (if myp.1 = 127 then
        ["# mypy\nmypy not installed. Install with: pip install mypy\n"] else [])
    else [])
  (ok2, pyStrip (String.intercalate "\n" parts2))

/-- The mutable state of `main`'s auto-fix loop (src/code_writer.py:671-704):
current candidate (`wr.code`), last `run_checks` flag, last pytest return
code, and the accumulated diagnostics list. -/
structure FixState where
  code : String
  ok : Bool
  testRc : Int
  diagnostics : List String
deriving DecidableEq

/-- What one refinement round's provider interaction amounts to: an exception
escaping provider construction (uncaught in `main`), or the reply text the
constructed provider's `generate` returned (the embedded providers catch
their own network errors). -/
inductive ProvAttempt
  | ctorExn
  | reply (text : String)
deriving DecidableEq

/-- The external world of the fix loop, keyed by the remaining-budget counter
of the round: provider interaction, `run_checks` on the freshly written file,
`run_pytests` return code, and whether `--run-tests` was passed. -/
structure LoopEnv where
  provider : Nat → ProvAttempt
  checks : Nat → String → Bool × String
  tests : Nat → Int
  runTests : Bool

/-- The diagnostics line appended when pytest fails (src/code_writer.py:669). -/
def pytest_fail_line : String := "# pytest\nTests failed. See output above."

/-- One pass of the fix-loop body (src/code_writer.py:674-704): refine, write,
re-check, optionally re-run tests.  `none` models an exception the body does
not catch (provider construction raising). -/
def fixRound (env : LoopEnv) (k : Nat) (st : FixState) : Option FixState :=
  match env.provider k with
  | ProvAttempt.ctorExn => none
  | ProvAttempt.reply t =>
    let new_code := refine_reply t
    let pr := env.checks k new_code
    let diags := if pr.2 = "" then [] else [pr.2]
    if env.runTests then
      let rc := env.tests k
      some { code := new_code, ok := pr.1, testRc := rc,
             diagnostics := if rc ≠ 0 then diags ++ [pytest_fail_line] else diags }
    else
      some { code := new_code, ok := pr.1, testRc := st.testRc, diagnostics := diags }

/-- Result of running the fix loop to termination: the final state and how
many refinement rounds ran, or a crash (uncaught exception) after some
completed rounds. -/
inductive LoopOutcome
  | done (st : FixState) (rounds : Nat)
  | crashed (st : FixState) (rounds : Nat)
deriving DecidableEq

/-- The `while iter_left > 0 and (not ok or test_rc != 0)` loop of `main`
(src/code_writer.py:672-704), by recursion on the remaining budget. -/
def fixLoop (env : LoopEnv) : Nat → FixState → LoopOutcome
  | 0, st => LoopOutcome.done st 0
  | n+1, st =>
    if st.ok = true ∧ st.testRc = 0 then LoopOutcome.done st 0
    else
      match fixRound env n st with
      | none => LoopOutcome.crashed st 0
      | some st' =>
        match fixLoop env n st' with
        | LoopOutcome.done st2 r => LoopOutcome.done st2 (r+1)
        | LoopOutcome.crashed st2 r => LoopOutcome.crashed st2 (r+1)

/-- Number of refinement rounds an outcome records. -/
def roundsOf : LoopOutcome → Nat
  | LoopOutcome.done _ r => r
  | LoopOutcome.crashed _ r => r

/-- Final state an outcome records. -/
def stateOf : LoopOutcome → FixState
  | LoopOutcome.done st _ => st
  | LoopOutcome.crashed st _ => st

/-- `iter_left = max(0, int(args.fix))` (src/code_writer.py:672). -/
def initialBudget (fix : Int) : Nat := (max 0 fix).toNat

/-- The loop state `main` assembles before the fix loop
(src/code_writer.py:645-669): `run_checks` result, and the pytest return code
when `--run-tests` was passed (0 otherwise). -/
def initFixState (code : String) (checkRes : Bool × String) (runTests : Bool)
    (rc : Int) : FixState :=
  let d : List String := if checkRes.2 = "" then [] else [checkRes.2]
  let trc : Int := if runTests then rc else 0
  { code := code, ok := checkRes.1, testRc := trc,
    diagnostics := if runTests ∧ rc ≠ 0 then d ++ [pytest_fail_line] else d }

theorem containsSub_append_right (xs ys needle : List Char)
    (h : containsSub ys needle = true) : containsSub (xs ++ ys) needle = true := by
  induction xs with
  | nil => simpa using h
  | cons x xs ih => simp [containsSub, ih]

theorem is_stub_make_stub (note : Option String) : is_stub (make_stub note) = true := by
  simp only [is_stub, strContains, make_stub]
  rw [String.data_append]
  rw [containsSub_append_right _ _ _
    (by decide :
      containsSub ("\n'''\n\ndef main() -> None:\n    # TODO: replace stub with real implementation\n    print('STUB')\n\nif __name__ == '__main__':\n    main()\n".data)
        ("print('STUB')".data) = true)]
  rfl

theorem make_stub_ne_empty (note : Option String) : make_stub note ≠ "" := by
  intro h
  have h1 := is_stub_make_stub note
  rw [h] at h1
  exact absurd h1 (by decide)

/-- C9: every stub synthesized by `make_stub` is recognized as a stub by
`is_stub`: for every note argument (including `none` and notes containing
newlines), `is_stub (make_stub note)` is true, so synthesized fallbacks are
always classified as stub-marked output by the rotation logic. -/
theorem make_stub_recognized_by_is_stub (note : Option String) :
    is_stub (make_stub note) = true :=
  is_stub_make_stub note

/-- C3: for every preferred provider in the canonical provider list,
`rotate_providers_order` returns a list whose first element is that provider
and which contains each canonical provider exactly once, the others in
canonical order. -/
theorem rotate_providers_order_preferred (p : String) (hp : p ∈ canonical_providers) :
    (rotate_providers_order p).head? = some p ∧
    (∀ q ∈ canonical_providers, (rotate_providers_order p).count q = 1) ∧
    rotate_providers_order p = p :: canonical_providers.erase p := by
  fin_cases hp <;> exact ⟨rfl, by decide, rfl⟩

theorem rotate_providers_order_preferred_witness :
    (rotate_providers_order "openai").head? = some "openai" ∧
    (∀ q ∈ canonical_providers, (rotate_providers_order "openai").count q = 1) ∧
    rotate_providers_order "openai" = "openai" :: canonical_providers.erase "openai" :=
  rotate_providers_order_preferred "openai" (by decide)

/-- C10: for every preferred provider identifier that is not in the canonical
list, `rotate_providers_order` returns exactly the canonical list
`["gemini", "openai", "anthropic"]` without inserting the unknown
identifier, so the result always has length 3. -/
theorem rotate_providers_order_unknown (p : String) (hp : p ∉ canonical_providers) :
    rotate_providers_order p = ["gemini", "openai", "anthropic"] ∧
    (rotate_providers_order p).length = 3 := by
  rw [rotate_providers_order, if_neg hp]
  exact ⟨rfl, rfl⟩

theorem rotate_providers_order_unknown_witness :
    rotate_providers_order "mistral" = ["gemini", "openai", "anthropic"] ∧
    (rotate_providers_order "mistral").length = 3 :=
  rotate_providers_order_unknown "mistral" (by decide)

theorem roundsOf_fixLoop_le (env : LoopEnv) :
    ∀ (B : Nat) (st : FixState), roundsOf (fixLoop env B st) ≤ B := by
  intro B
  induction B with
  | zero => intro st; simp [fixLoop, roundsOf]
  | succ n ih =>
    intro st
    simp only [fixLoop]
    split
    · simp [roundsOf]
    · cases fixRound env n st with
      | none => simp [roundsOf]
      | some st' =>
        dsimp only
        have h := ih st'
        cases hfl : fixLoop env n st' with
        | done st2 r =>
          rw [hfl] at h
          simp only [roundsOf] at h ⊢
          omega
        | crashed st2 r =>
          rw [hfl] at h
          simp only [roundsOf] at h ⊢
          omega

/-- C2: the fix loop's iteration budget is a non-negative integer
(`initialBudget` clamps `args.fix` at zero) that strictly decreases by one
per pass and gates continuation: the loop body never runs when the budget
entering the check is zero, and for any budget `B` at most `B` refinement
rounds ever occur. -/
theorem fixLoop_budget_bound (env : LoopEnv) (B : Nat) (st : FixState) (fx : Int) :
    roundsOf (fixLoop env B st) ≤ B ∧
    fixLoop env 0 st = LoopOutcome.done st 0 ∧
    roundsOf (fixLoop env (initialBudget fx) st) ≤ initialBudget fx :=
  ⟨roundsOf_fixLoop_le env B st, rfl, roundsOf_fixLoop_le env _ st⟩

/-- C8: if the initial diagnostic run passes (`run_checks` returned a true
flag and, when a test run was requested, that run returned exit code 0), the
fix loop performs zero refinement rounds regardless of the configured
budget. -/
theorem fixLoop_initial_pass (env : LoopEnv) (code : String) (cr : Bool × String)
    (runTests : Bool) (rc : Int) (fx : Int)
    (hok : cr.1 = true) (hrc : runTests = true → rc = 0) :
    fixLoop env (initialBudget fx) (initFixState code cr runTests rc) =
      LoopOutcome.done (initFixState code cr runTests rc) 0 := by
  have htrc : (initFixState code cr runTests rc).testRc = 0 := by
    simp only [initFixState]
    by_cases hr : runTests = true
    · simp [hr, hrc hr]
    · simp [Bool.not_eq_true] at hr
      simp [hr]
  have hok2 : (initFixState code cr runTests rc).ok = true := hok
  cases hB : initialBudget fx with
  | zero => rfl
  | succ n =>
    simp only [fixLoop]
    rw [if_pos ⟨hok2, htrc⟩]

/-- An inert loop environment used by concrete witnesses. -/
def envA : LoopEnv :=
  { provider := fun _ => ProvAttempt.ctorExn,
    checks := fun _ _ => (true, ""),
    tests := fun _ => 0,
    runTests := false }

theorem fixLoop_initial_pass_witness :
    fixLoop envA (initialBudget 5) (initFixState "x = 1" (true, "") true 0) =
      LoopOutcome.done (initFixState "x = 1" (true, "") true 0) 0 :=
  fixLoop_initial_pass envA "x = 1" (true, "") true 0 5 rfl (fun _ => rfl)

/-- The loop state of the C1 scenario: a failing candidate entering a
refinement round. -/
def stC1 : FixState :=
  { code := "x = 1", ok := false, testRc := 0, diagnostics := ["# flake8\nboom"] }

/-- The environment of the C1 scenario: the OpenAI provider's network call
raises a transport error, which `OpenAIProvider.generate` catches and turns
into a stub reply; re-checking the written file still fails. -/
def envC1 : LoopEnv :=
  { provider := fun _ => ProvAttempt.reply (openai_generate NetOutcome.error),
    checks := fun _ _ => (false, "diag2"),
    tests := fun _ => 0,
    runTests := false }

set_option maxRecDepth 10000 in
/-- C1 counterexample: with budget 1, a refinement round whose provider call
fails with a transport error does not crash and decrements the budget — but
the candidate is replaced by the stub extracted from the provider's error
reply, not left unchanged as the claim states. -/
theorem refinement_transport_error_replaces_candidate :
    fixLoop envC1 1 stC1 =
      LoopOutcome.done
        { code := pyRstrip (make_stub (some "OpenAI error.")), ok := false,
          testRc := 0, diagnostics := ["diag2"] } 1 ∧
    (stateOf (fixLoop envC1 1 stC1)).code ≠ stC1.code := by
  constructor
  · decide
  · decide

/-- C1 amended: during a refinement round with a failing candidate, a
provider error inside `generate` (transport/quota) is caught by the provider
and returned as a stub-marked reply, so the loop does not crash and the
budget is decremented by exactly one — but the candidate is replaced by the
code `refine_reply` extracts from that reply (a stub, not the unchanged
previous candidate), and that replacement is what gets re-diagnosed; only an
exception escaping provider construction (e.g. missing credentials) is
uncaught and crashes the loop. -/
theorem refinement_round_exception_semantics (env : LoopEnv) (st : FixState) (n : Nat)
    (hok : st.ok = false) :
    (∀ t, env.provider n = ProvAttempt.reply t →
      ∃ st', fixRound env n st = some st' ∧ st'.code = refine_reply t ∧
        roundsOf (fixLoop env (n+1) st) = roundsOf (fixLoop env n st') + 1 ∧
        stateOf (fixLoop env (n+1) st) = stateOf (fixLoop env n st')) ∧
    (env.provider n = ProvAttempt.ctorExn →
      fixLoop env (n+1) st = LoopOutcome.crashed st 0) := by
  have hguard : ¬(st.ok = true ∧ st.testRc = 0) := by simp [hok]
  constructor
  · intro t ht
    have hfr : ∃ st', fixRound env n st = some st' ∧ st'.code = refine_reply t := by
      unfold fixRound
      rw [ht]
      dsimp only
      split
      · refine ⟨_, rfl, ?_⟩
        dsimp only
      · refine ⟨_, rfl, ?_⟩
        dsimp only
    obtain ⟨st', h1, h2⟩ := hfr
    refine ⟨st', h1, h2, ?_, ?_⟩
    · simp only [fixLoop, if_neg hguard, h1]
      cases fixLoop env n st' <;> simp [roundsOf]
    · simp only [fixLoop, if_neg hguard, h1]
      cases fixLoop env n st' <;> simp [stateOf]
  · intro hc
    simp only [fixLoop, if_neg hguard, fixRound, hc]

theorem refinement_round_exception_semantics_witness :
    (∀ t, envC1.provider 0 = ProvAttempt.reply t →
      ∃ st', fixRound envC1 0 stC1 = some st' ∧ st'.code = refine_reply t ∧
        roundsOf (fixLoop envC1 1 stC1) = roundsOf (fixLoop envC1 0 st') + 1 ∧
        stateOf (fixLoop envC1 1 stC1) = stateOf (fixLoop envC1 0 st')) ∧
    (envC1.provider 0 = ProvAttempt.ctorExn →
      fixLoop envC1 1 stC1 = LoopOutcome.crashed stC1 0) :=
  refinement_round_exception_semantics envC1 stC1 0 rfl

/-- C5: in `run_checks`, a missing tool (reserved exit code 127) is recorded
as an informational diagnostic line but never flips the overall result: the
pass flag is false exactly when the syntax check fails or an enabled
lint/type check returned a non-zero, non-127 exit code; in particular, with
both tools missing and valid syntax the report passes and both
"not installed" lines appear. -/
theorem run_checks_pass_flag (syn : Bool × String) (do_lint : Bool)
    (flake : Int × String × String) (do_mypy : Bool) (myp : Int × String × String) :
    ((run_checks syn do_lint flake do_mypy myp).1 = false ↔
      (syn.1 = false ∨ (do_lint = true ∧ flake.1 ≠ 0 ∧ flake.1 ≠ 127) ∨
        (do_mypy = true ∧ myp.1 ≠ 0 ∧ myp.1 ≠ 127))) ∧
    (run_checks (true, "") true (127, "", "e1") true (127, "", "e2")).1 = true ∧
    strContains (run_checks (true, "") true (127, "", "e1") true (127, "", "e2")).2
      "flake8 not installed" = true ∧
    strContains (run_checks (true, "") true (127, "", "e1") true (127, "", "e2")).2
      "mypy not installed" = true := by
  refine ⟨?_, by decide, by decide, by decide⟩
  simp only [run_checks]
  split_ifs with h1 h2 <;> simp_all

/-- C6: `refine_with_feedback` never returns an empty candidate: for every
provider reply, if code extraction from the refinement reply yields the
empty string, the synthesized safe stub is substituted, so the fix loop's
current candidate is never empty. -/
theorem refine_with_feedback_nonempty (generate : String → Nat → String)
    (current_code diagnostics : String) (max_tokens : Nat) :
    refine_with_feedback generate current_code diagnostics max_tokens ≠ "" ∧
    (extract_code_blocks (generate (feedback_prompt current_code diagnostics) max_tokens) = "" →
      refine_with_feedback generate current_code diagnostics max_tokens =
        make_stub (some "Fix attempt produced no code.")) := by
  constructor
  · simp only [refine_with_feedback, refine_reply]
    split
    · exact make_stub_ne_empty _
    · assumption
  · intro h
    simp [refine_with_feedback, refine_reply, h]

theorem refine_with_feedback_nonempty_witness :
    refine_with_feedback (fun _ _ => "") "x" "y" 0 ≠ "" ∧
    refine_with_feedback (fun _ _ => "") "x" "y" 0 =
      make_stub (some "Fix attempt produced no code.") := by
  have h := refine_with_feedback_nonempty (fun _ _ => "") "x" "y" 0
  exact ⟨h.1, h.2 rfl⟩

theorem attempt_code_ne_empty (t : String) : attempt_code t ≠ "" := by
  unfold attempt_code
  dsimp only
  split
  · exact make_stub_ne_empty _
  · assumption

theorem getLast_getD_cons (S : List String) : ∀ (a y : String),
    ((a :: S).getLast?).getD y = (S.getLast?).getD a := by
  induction S with
  | nil => intro a y; rfl
  | cons s ss ih =>
    intro a y
    rw [List.getLast?_cons_cons, ih s y, show ((s :: ss).getLast?).getD a =
      (ss.getLast?).getD s from ih s a]

theorem stubs_seen_all_stub (order : List String) (att : String → RotAttempt) :
    ∀ x ∈ stubs_seen order att, is_stub x = true := by
  intro x hx
  simp only [stubs_seen, List.mem_filterMap] at hx
  obtain ⟨p, _, hf⟩ := hx
  cases hap : att p with
  | exn => rw [hap] at hf; cases hf
  | result t =>
    rw [hap] at hf
    dsimp only at hf
    by_cases hs : is_stub (attempt_code t) = true
    · rw [if_pos hs] at hf
      cases hf
      exact hs
    · rw [if_neg hs] at hf
      cases hf

theorem last_getD_stub (S : List String) (d : String)
    (hall : ∀ x ∈ S, is_stub x = true) (hd : is_stub d = true) :
    is_stub ((S.getLast?).getD d) = true := by
  cases hl : S.getLast? with
  | none => exact hd
  | some x =>
    obtain ⟨hne, hxl⟩ := List.mem_getLast?_eq_getLast (Option.mem_def.mpr hl)
    rw [Option.getD_some, hxl]
    exact hall _ (List.getLast_mem hne)

theorem generate_rotation_go_stubs (att : String → RotAttempt) :
    ∀ (order : List String) (lc : String),
      (∀ p ∈ order, att p = RotAttempt.exn ∨
        ∃ t, att p = RotAttempt.result t ∧ is_stub (attempt_code t) = true) →
      generate_rotation_go order att lc =
        ((stubs_seen order att).getLast?).getD
          (if lc = "" then make_stub (some "All providers failed or returned stubs.")
           else lc) := by
  intro order
  induction order with
  | nil => intro lc _; rfl
  | cons p ps ih =>
    intro lc hall
    have htail : ∀ q ∈ ps, att q = RotAttempt.exn ∨
        ∃ t, att q = RotAttempt.result t ∧ is_stub (attempt_code t) = true :=
      fun q hq => hall q (List.mem_cons_of_mem p hq)
    rcases hall p (List.mem_cons_self p ps) with hexn | ⟨t, ht, hstub⟩
    · have hs : stubs_seen (p :: ps) att = stubs_seen ps att := by
        simp only [stubs_seen, List.filterMap_cons, hexn]
      simp only [generate_rotation_go]
      rw [hexn, hs]
      exact ih lc htail
    · have hs : stubs_seen (p :: ps) att = attempt_code t :: stubs_seen ps att := by
        simp only [stubs_seen, List.filterMap_cons, ht, hstub, if_true]
      simp only [generate_rotation_go]
      rw [ht]
      dsimp only
      rw [if_pos hstub, hs, getLast_getD_cons, ih (attempt_code t) htail,
        if_neg (attempt_code_ne_empty t)]

/-- C4: `generate_with_rotation` never raises: if every provider attempt
fails with an exception or yields only stub-marked output, it returns a
stub-marked candidate — the last stub seen during rotation, or a freshly
synthesized stub if no provider produced any output. -/
theorem generate_with_rotation_all_stub (primary : String) (att : String → RotAttempt)
    (h : ∀ p ∈ rotate_providers_order primary,
      att p = RotAttempt.exn ∨
        ∃ t, att p = RotAttempt.result t ∧ is_stub (attempt_code t) = true) :
    is_stub (generate_with_rotation primary att) = true ∧
    generate_with_rotation primary att =
      ((stubs_seen (rotate_providers_order primary) att).getLast?).getD
        (make_stub (some "All providers failed or returned stubs.")) := by
  have key := generate_rotation_go_stubs att (rotate_providers_order primary) "" h
  rw [if_pos rfl] at key
  have hgw : generate_with_rotation primary att =
      generate_rotation_go (rotate_providers_order primary) att "" := rfl
  refine ⟨?_, by rw [hgw]; exact key⟩
  rw [hgw, key]
  exact last_getD_stub _ _ (stubs_seen_all_stub _ att) (is_stub_make_stub _)

theorem generate_with_rotation_all_stub_witness :
    is_stub (generate_with_rotation "openai" (fun _ => RotAttempt.exn)) = true ∧
    generate_with_rotation "openai" (fun _ => RotAttempt.exn) =
      ((stubs_seen (rotate_providers_order "openai")
          (fun _ => RotAttempt.exn)).getLast?).getD
        (make_stub (some "All providers failed or returned stubs.")) :=
  generate_with_rotation_all_stub "openai" (fun _ => RotAttempt.exn)
    (fun _ _ => Or.inl rfl)

/-- The first line of a string starts with one of the recognized leading
tokens (the hypothesis of the idempotence claim). -/
def firstLineStartsToken (s : String) : Bool :=
  match splitlinesL s.data with
  | [] => false
  | l :: _ => startsWithTokenL l

theorem dropWhile_ws_append_singleton (c : Char) (hc : isPyWs c = false) :
    ∀ l : List Char, (l ++ [c]).dropWhile isPyWs = l.dropWhile isPyWs ++ [c] := by
  intro l
  induction l with
  | nil => simp [List.dropWhile_cons, hc]
  | cons x t ih =>
    rw [List.cons_append, List.dropWhile_cons, List.dropWhile_cons]
    by_cases hx : isPyWs x = true
    · rw [if_pos hx, if_pos hx, ih]
    · rw [if_neg hx, if_neg hx, List.cons_append]

theorem pyRstripL_cons_not_ws (c : Char) (t : List Char) (hc : isPyWs c = false) :
    pyRstripL (c :: t) = c :: pyRstripL t := by
  unfold pyRstripL
  rw [List.reverse_cons, dropWhile_ws_append_singleton c hc, List.reverse_append]
  rfl

theorem pyLstripL_cons_not_ws (c : Char) (t : List Char) (hc : isPyWs c = false) :
    pyLstripL (c :: t) = c :: t := by
  unfold pyLstripL
  rw [List.dropWhile_cons, if_neg (by rw [hc]; exact Bool.false_ne_true)]

theorem pyStripL_eq_rstrip_of_head (c : Char) (t : List Char) (hc : isPyWs c = false) :
    pyStripL (c :: t) = pyRstripL (c :: t) := by
  unfold pyStripL
  rw [pyRstripL_cons_not_ws c t hc]
  exact pyLstripL_cons_not_ws c _ hc

theorem head?_dropWhile_not (p : Char → Bool) :
    ∀ (l : List Char) (a : Char), (l.dropWhile p).head? = some a → p a = false := by
  intro l
  induction l with
  | nil => intro a h; cases h
  | cons x t ih =>
    intro a h
    rw [List.dropWhile_cons] at h
    by_cases hx : p x = true
    · rw [if_pos hx] at h; exact ih a h
    · rw [if_neg hx] at h
      cases h
      exact Bool.not_eq_true _ ▸ Bool.of_not_eq_true hx

theorem getLast?_dropWhile_of_ne_nil (p : Char → Bool) :
    ∀ l : List Char, l.dropWhile p ≠ [] → (l.dropWhile p).getLast? = l.getLast? := by
  intro l
  induction l with
  | nil => intro h; exact absurd rfl h
  | cons x t ih =>
    intro h
    rw [List.dropWhile_cons] at h ⊢
    by_cases hx : p x = true
    · rw [if_pos hx] at h ⊢
      have ht : t ≠ [] := by
        intro hc
        rw [hc] at h
        exact h rfl
      obtain ⟨y, ys, hy⟩ := List.exists_cons_of_ne_nil ht
      rw [ih h, hy, List.getLast?_cons_cons]
    · rw [if_neg hx]

theorem pyRstripL_getLast_not_ws (L : List Char) (a : Char)
    (h : (pyRstripL L).getLast? = some a) : isPyWs a = false := by
  unfold pyRstripL at h
  rw [List.getLast?_reverse] at h
  exact head?_dropWhile_not isPyWs _ a h

theorem pyStripL_getLast_not_ws (L : List Char) (a : Char)
    (h : (pyStripL L).getLast? = some a) : isPyWs a = false := by
  unfold pyStripL pyLstripL at h
  have hne : (pyRstripL L).dropWhile isPyWs ≠ [] := by
    intro hc
    rw [hc] at h
    cases h
  rw [getLast?_dropWhile_of_ne_nil isPyWs _ hne] at h
  exact pyRstripL_getLast_not_ws L a h

theorem pyStripL_head_not_ws (L : List Char) (a : Char)
    (h : (pyStripL L).head? = some a) : isPyWs a = false :=
  head?_dropWhile_not isPyWs _ a h

theorem pyRstripL_eq_self_of_getLast (M : List Char) (a : Char)
    (h : M.getLast? = some a) (ha : isPyWs a = false) : pyRstripL M = M := by
  have hne : M ≠ [] := by
    intro hc
    rw [hc] at h
    cases h
  have hrev : M.reverse.head? = some a := by
    rw [List.head?_reverse]
    exact h
  obtain ⟨x, xs, hx⟩ := List.exists_cons_of_ne_nil (show M.reverse ≠ [] by
    intro hc
    rw [hc] at hrev
    cases hrev)
  have hxa : x = a := by
    rw [hx] at hrev
    cases hrev
    rfl
  unfold pyRstripL
  rw [hx, List.dropWhile_cons, if_neg (by rw [hxa, ha]; exact Bool.false_ne_true),
    ← hx, List.reverse_reverse]

theorem pyLstripL_eq_self_of_head (M : List Char) (a : Char)
    (h : M.head? = some a) (ha : isPyWs a = false) : pyLstripL M = M := by
  obtain ⟨x, xs, hx⟩ := List.exists_cons_of_ne_nil (show M ≠ [] by
    intro hc
    rw [hc] at h
    cases h)
  have hxa : x = a := by
    rw [hx] at h
    cases h
    rfl
  rw [hx]
  exact pyLstripL_cons_not_ws x xs (hxa ▸ ha)

theorem pyStripL_idem (L : List Char) (hne : pyStripL L ≠ []) :
    pyStripL (pyStripL L) = pyStripL L := by
  obtain ⟨a, ha⟩ : ∃ a, (pyStripL L).getLast? = some a := by
    cases hgl : (pyStripL L).getLast? with
    | none => exact absurd (List.getLast?_eq_none_iff.mp hgl) hne
    | some a => exact ⟨a, rfl⟩
  obtain ⟨b, hb⟩ : ∃ b, (pyStripL L).head? = some b := by
    cases hh : (pyStripL L).head? with
    | none => exact absurd (List.head?_eq_none_iff.mp hh) hne
    | some b => exact ⟨b, rfl⟩
  have h1 : pyRstripL (pyStripL L) = pyStripL L :=
    pyRstripL_eq_self_of_getLast _ a ha (pyStripL_getLast_not_ws L a ha)
  show pyLstripL (pyRstripL (pyStripL L)) = pyStripL L
  rw [h1]
  exact pyLstripL_eq_self_of_head _ b hb (pyStripL_head_not_ws L b hb)

theorem mem_of_mem_pyStripL (c : Char) (L : List Char) (h : c ∈ pyStripL L) :
    c ∈ L := by
  have h1 : c ∈ pyRstripL L := (List.dropWhile_suffix isPyWs).subset h
  unfold pyRstripL at h1
  have h2 : c ∈ (L.reverse).dropWhile isPyWs := List.mem_reverse.mp h1
  exact List.mem_reverse.mp ((List.dropWhile_suffix isPyWs).subset h2)

theorem splitlinesL_ne_nil (L : List Char) (h : L ≠ []) : splitlinesL L ≠ [] := by
  obtain ⟨c, rest, hc⟩ := List.exists_cons_of_ne_nil h
  rw [hc, splitlinesL_cons]
  exact List.cons_ne_nil _ _

theorem join_cons_of_ne_nil (a : List Char) (Y : List (List Char)) (h : Y ≠ []) :
    joinLinesL (a :: Y) = a ++ '\n' :: joinLinesL Y := by
  obtain ⟨y, ys, hy⟩ := List.exists_cons_of_ne_nil h
  rw [hy]
  rfl

theorem join_cons_head (c : Char) (a : List Char) (Y : List (List Char)) :
    joinLinesL ((c :: a) :: Y) = c :: joinLinesL (a :: Y) := by
  cases Y with
  | nil => rfl
  | cons y ys => rfl

theorem getLast?_cons_of_ne_nil (c : Char) (rest : List Char) (h : rest ≠ []) :
    (c :: rest).getLast? = rest.getLast? := by
  obtain ⟨r, rs, hr⟩ := List.exists_cons_of_ne_nil h
  rw [hr, List.getLast?_cons_cons]

theorem join_splitlines :
    ∀ (n : Nat) (L : List Char), L.length ≤ n →
      (∀ c ∈ L, isLineBoundary c = true → c = '\n') →
      L.getLast? ≠ some '\n' →
      joinLinesL (splitlinesL L) = L := by
  intro n
  induction n with
  | zero =>
    intro L hlen _ _
    have : L = [] := List.eq_nil_of_length_eq_zero (Nat.le_zero.mp hlen)
    rw [this]
    rfl
  | succ n ih =>
    intro L hlen hb hl
    cases L with
    | nil => rfl
    | cons c rest =>
      by_cases hc : c = '\n'
      · subst hc
        have hsl : splitLine ('\n' :: rest) = ([], rest) := by
          rw [splitLine, if_neg (by
            intro hcon
            exact absurd hcon.1 (by decide)), if_pos (by decide)]
        have hrest_ne : rest ≠ [] := by
          intro hc0
          rw [hc0] at hl
          exact hl rfl
        rw [splitlinesL_cons, hsl]
        dsimp only
        rw [join_cons_of_ne_nil [] _ (splitlinesL_ne_nil rest hrest_ne)]
        rw [ih rest (Nat.le_of_succ_le_succ hlen)
          (fun x hx hbx => hb x (List.mem_cons_of_mem _ hx) hbx)
          (by rw [← getLast?_cons_of_ne_nil '\n' rest hrest_ne]; exact hl)]
        rfl
      · have hcb : isLineBoundary c = false := by
          cases hlb : isLineBoundary c with
          | false => rfl
          | true => exact absurd (hb c (List.mem_cons_self c rest) hlb) hc
        have hcr : ¬(c = '\r' ∧ rest.head? = some '\n') := by
          intro hcon
          rw [hcon.1] at hcb
          exact absurd hcb (by decide)
        have hsl : splitLine (c :: rest) =
            (c :: (splitLine rest).1, (splitLine rest).2) := by
          rw [splitLine, if_neg hcr,
            if_neg (by rw [hcb]; exact Bool.false_ne_true)]
        cases rest with
        | nil =>
          rw [splitlinesL_cons, hsl]
          rfl
        | cons r0 rs =>
          have hrec : splitlinesL (r0 :: rs) =
              (splitLine (r0 :: rs)).1 :: splitlinesL (splitLine (r0 :: rs)).2 :=
            splitlinesL_cons r0 rs
          rw [splitlinesL_cons, hsl]
          dsimp only
          rw [join_cons_head, ← hrec]
          rw [ih (r0 :: rs) (Nat.le_of_succ_le_succ hlen)
            (fun x hx hbx => hb x (List.mem_cons_of_mem _ hx) hbx)
            (by rw [← getLast?_cons_of_ne_nil c (r0 :: rs) (List.cons_ne_nil r0 rs)]
                exact hl)]

theorem isPrefixOf_append_mono (x u w : List Char) (h : x.isPrefixOf u = true) :
    x.isPrefixOf (u ++ w) = true := by
  rw [List.isPrefixOf_iff_prefix] at h ⊢
  exact h.trans (List.prefix_append u w)

theorem scanClose_append (b w : List Char) (h : scanClose b ≠ none) :
    scanClose (b ++ w) ≠ none := by
  induction b with
  | nil => exact absurd rfl h
  | cons c t ih =>
    rw [List.cons_append, scanClose]
    by_cases hp : ("```".data).isPrefixOf (c :: (t ++ w)) = true
    · rw [if_pos hp]
      exact Option.some_ne_none _
    · rw [if_neg hp]
      have hp0 : ("```".data).isPrefixOf (c :: t) = false := by
        cases hq : ("```".data).isPrefixOf (c :: t) with
        | false => rfl
        | true =>
          have h2 := isPrefixOf_append_mono _ (c :: t) w hq
          rw [List.cons_append] at h2
          exact absurd h2 hp
      rw [scanClose, if_neg (by rw [hp0]; exact Bool.false_ne_true)] at h
      have ht : scanClose t ≠ none := by
        intro hc
        rw [hc] at h
        exact h rfl
      cases hsc : scanClose (t ++ w) with
      | none => exact absurd hsc (ih ht)
      | some g => simp

theorem take_map_py_len (r : List Char)
    (h : (r.take 6).map lowerAscii = "python".data) : 6 ≤ r.length := by
  have hlen := congrArg List.length h
  rw [List.length_map, List.length_take] at hlen
  have : min 6 r.length = 6 := by
    rw [hlen]
    rfl
  omega

theorem fence_fallback_mono (r w : List Char)
    (h : (if r.head? = some '\n' then scanClose r.tail else none) ≠ none) :
    (if (r ++ w).head? = some '\n' then scanClose (r ++ w).tail else none) ≠ none := by
  by_cases hh : r.head? = some '\n'
  · have hr_ne : r ≠ [] := by
      intro hc
      rw [hc] at hh
      cases hh
    rw [if_pos hh] at h
    have hh2 : (r ++ w).head? = some '\n' := by
      rw [List.head?_append_of_ne_nil _ hr_ne]
      exact hh
    rw [if_pos hh2]
    obtain ⟨x, xs, hx⟩ := List.exists_cons_of_ne_nil hr_ne
    subst hx
    exact scanClose_append _ w h
  · rw [if_neg hh] at h
    exact absurd rfl h

theorem matchFenceAt_append (u w : List Char) (h : matchFenceAt u ≠ none) :
    matchFenceAt (u ++ w) ≠ none := by
  unfold matchFenceAt at h ⊢
  by_cases hp : ("```".data).isPrefixOf u = true
  · have hp2 : ("```".data).isPrefixOf (u ++ w) = true := isPrefixOf_append_mono _ u w hp
    rw [if_pos hp] at h
    rw [if_pos hp2]
    dsimp only at h ⊢
    have hlen3 : 3 ≤ u.length := by
      have h3 := (List.isPrefixOf_iff_prefix.mp hp).length_le
      simpa using h3
    rw [List.drop_append_of_le_length hlen3]
    by_cases hpy : ((u.drop 3).take 6).map lowerAscii = "python".data ∧
        ((u.drop 3).drop 6).head? = some '\n'
    · have h6 : 6 ≤ (u.drop 3).length := take_map_py_len _ hpy.1
      have hd6 : (u.drop 3).drop 6 ≠ [] := by
        intro hc
        rw [hc] at hpy
        cases hpy.2
      have htake : ((u.drop 3) ++ w).take 6 = (u.drop 3).take 6 :=
        List.take_append_of_le_length h6
      have hdrop : ((u.drop 3) ++ w).drop 6 = (u.drop 3).drop 6 ++ w :=
        List.drop_append_of_le_length h6
      have hcond2 : (((u.drop 3) ++ w).take 6).map lowerAscii = "python".data ∧
          (((u.drop 3) ++ w).drop 6).head? = some '\n' := by
        refine ⟨by rw [htake]; exact hpy.1, ?_⟩
        rw [hdrop, List.head?_append_of_ne_nil _ hd6]
        exact hpy.2
      rw [if_pos hcond2]
      have htail : (((u.drop 3) ++ w).drop 6).tail = ((u.drop 3).drop 6).tail ++ w := by
        rw [hdrop]
        obtain ⟨x, xs, hx⟩ := List.exists_cons_of_ne_nil hd6
        rw [hx]
        rfl
      rw [htail]
      cases hsc : scanClose (((u.drop 3).drop 6).tail ++ w) with
      | some g => exact Option.some_ne_none _
      | none =>
        have hscu : scanClose ((u.drop 3).drop 6).tail = none := by
          by_contra hne
          exact (scanClose_append _ w hne) hsc
        rw [if_pos hpy, hscu] at h
        dsimp only at h ⊢
        exact fence_fallback_mono _ w h
    · rw [if_neg hpy] at h
      dsimp only at h
      by_cases hpy2 : (((u.drop 3) ++ w).take 6).map lowerAscii = "python".data ∧
          (((u.drop 3) ++ w).drop 6).head? = some '\n'
      · rw [if_pos hpy2]
        cases hsc : scanClose ((((u.drop 3) ++ w).drop 6).tail) with
        | some g => exact Option.some_ne_none _
        | none =>
          dsimp only
          exact fence_fallback_mono _ w h
      · rw [if_neg hpy2]
        dsimp only
        exact fence_fallback_mono _ w h
  · rw [if_neg hp] at h
    exact absurd rfl h

theorem fenceSearch_none_suffix (cs : List Char) (h : fenceSearch cs = none) :
    ∀ v, v <:+ cs → matchFenceAt v = none := by
  induction cs with
  | nil =>
    intro v hv
    rw [List.suffix_nil.mp hv]
    decide
  | cons c t ih =>
    have h1 : matchFenceAt (c :: t) = none ∧ fenceSearch t = none := by
      rw [fenceSearch] at h
      cases hm : matchFenceAt (c :: t) with
      | some g => rw [hm] at h; cases h
      | none => rw [hm] at h; exact ⟨rfl, h⟩
    intro v hv
    rcases List.suffix_cons_iff.mp hv with hve | hvs
    · rw [hve]
      exact h1.1
    · exact ih h1.2 v hvs

theorem fenceSearch_some_suffix (cs : List Char) (h : fenceSearch cs ≠ none) :
    ∃ v, v <:+ cs ∧ matchFenceAt v ≠ none := by
  induction cs with
  | nil => exact absurd rfl h
  | cons c t ih =>
    rw [fenceSearch] at h
    cases hm : matchFenceAt (c :: t) with
    | some g =>
      exact ⟨c :: t, List.suffix_rfl, by rw [hm]; exact Option.some_ne_none _⟩
    | none =>
      rw [hm] at h
      obtain ⟨v, hv, hmv⟩ := ih h
      exact ⟨v, List.suffix_cons_iff.mpr (Or.inr hv), hmv⟩

theorem fenceSearch_strip_none (L : List Char) (h : fenceSearch L = none) :
    fenceSearch (pyStripL L) = none := by
  by_contra hne
  obtain ⟨v, hv, hm⟩ := fenceSearch_some_suffix _ hne
  have hv2 : v <:+ pyRstripL L := hv.trans (List.dropWhile_suffix isPyWs)
  have hpre : pyRstripL L <+: L := by
    have hs : (L.reverse).dropWhile isPyWs <:+ L.reverse := List.dropWhile_suffix _
    have h2 := hs.reverse
    rwa [List.reverse_reverse] at h2
  obtain ⟨a, ha⟩ := hv2
  obtain ⟨w, hw⟩ := hpre
  have hvw : (v ++ w) <:+ L := ⟨a, by rw [← hw, ← ha, List.append_assoc]⟩
  exact (matchFenceAt_append v w hm) (fenceSearch_none_suffix L h (v ++ w) hvw)

theorem startsWithTokenL_head (l : List Char) (h : startsWithTokenL l = true) :
    ∃ c t2, l = c :: t2 ∧ isPyWs c = false := by
  simp only [startsWithTokenL, List.any_eq_true] at h
  obtain ⟨tok, htok, hpre⟩ := h
  rw [List.isPrefixOf_iff_prefix] at hpre
  obtain ⟨r, hr⟩ := hpre
  have hne : tok.data ≠ [] ∧ isPyWs (tok.data.headD ' ') = false := by
    fin_cases htok <;> exact ⟨by decide, by decide⟩
  obtain ⟨c, t0, hct⟩ := List.exists_cons_of_ne_nil hne.1
  refine ⟨c, t0 ++ r, ?_, ?_⟩
  · rw [← hr, hct]
    rfl
  · have h2 := hne.2
    rw [hct] at h2
    exact h2

theorem startsWithTokenL_lstrip (l : List Char) (h : startsWithTokenL l = true) :
    pyLstripL l = l := by
  obtain ⟨c, t2, hl, hc⟩ := startsWithTokenL_head l h
  rw [hl]
  exact pyLstripL_cons_not_ws c t2 hc

theorem splitLine_fst_pre : ∀ L : List Char, ∃ m, L = (splitLine L).1 ++ m := by
  intro L
  induction L with
  | nil => exact ⟨[], rfl⟩
  | cons c rest ih =>
    by_cases hb1 : (c = '\r' ∧ rest.head? = some '\n')
    · simp only [splitLine]
      rw [if_pos hb1]
      exact ⟨c :: rest, rfl⟩
    · by_cases hb2 : isLineBoundary c = true
      · simp only [splitLine]
        rw [if_neg hb1, if_pos hb2]
        exact ⟨c :: rest, rfl⟩
      · simp only [splitLine]
        rw [if_neg hb1, if_neg hb2]
        obtain ⟨m, hm⟩ := ih
        refine ⟨m, ?_⟩
        dsimp only
        rw [List.cons_append, ← hm]

theorem splitlinesL_head_fst (L l1 : List Char) (T : List (List Char))
    (h : splitlinesL L = l1 :: T) : l1 = (splitLine L).1 := by
  cases L with
  | nil => rw [splitlinesL_nil] at h; cases h
  | cons c rest =>
    rw [splitlinesL_cons] at h
    injection h with h1 _
    exact h1.symm

theorem extract_of_normalized (M : List Char)
    (hb : ∀ c ∈ M, isLineBoundary c = true → c = '\n')
    (hlast : M.getLast? ≠ some '\n')
    (hpy : pyStripL M = M)
    (hfl : firstLineStartsToken (String.mk M) = true)
    (hfence : fenceSearch M = none) :
    extract_code_blocks (String.mk M) = String.mk M := by
  unfold extract_code_blocks
  dsimp only
  rw [hfence]
  dsimp only
  rw [hpy]
  unfold firstLineStartsToken at hfl
  dsimp only at hfl
  cases hsp : splitlinesL M with
  | nil => rw [hsp] at hfl; cases hfl
  | cons l1 T =>
    rw [hsp] at hfl
    dsimp only at hfl
    rw [List.dropWhile_cons, startsWithTokenL_lstrip l1 hfl, hfl]
    rw [if_neg (by decide)]
    rw [← hsp, join_splitlines M.length M (Nat.le_refl _) hb hlast, hpy]

/-- C7 amended: `extract_code_blocks` is the identity modulo surrounding
whitespace on already-clean source, provided the leading token survives
whitespace-stripping and the string uses only plain newlines as line
boundaries: for every string with no code fence, whose line-boundary
characters are all the newline character, whose first line starts with a
recognized leading token, and whose first line still starts with a
recognized token after stripping surrounding whitespace, the function
returns the string unchanged modulo trailing whitespace, and applying it
twice equals applying it once. -/
theorem extract_code_blocks_clean (s : String)
    (h1 : fenceSearch s.data = none)
    (h2 : ∀ c ∈ s.data, isLineBoundary c = true → c = '\n')
    (h3 : firstLineStartsToken s = true)
    (h4 : firstLineStartsToken (pyStrip s) = true) :
    extract_code_blocks s = pyRstrip s ∧
    extract_code_blocks (extract_code_blocks s) = extract_code_blocks s := by
  have hfl3 := h3
  unfold firstLineStartsToken at hfl3
  cases hsp : splitlinesL s.data with
  | nil => rw [hsp] at hfl3; cases hfl3
  | cons l1 T =>
    rw [hsp] at hfl3
    dsimp only at hfl3
    have hl1fst : l1 = (splitLine s.data).1 := splitlinesL_head_fst _ _ _ hsp
    obtain ⟨m0, hm0⟩ := splitLine_fst_pre s.data
    obtain ⟨c0, t20, hl1c, hc0⟩ := startsWithTokenL_head l1 hfl3
    have hsdata : s.data = c0 :: (t20 ++ m0) := by
      conv_lhs => rw [hm0, ← hl1fst, hl1c]
      rfl
    have hsr : pyStripL s.data = pyRstripL s.data := by
      rw [hsdata]
      exact pyStripL_eq_rstrip_of_head c0 _ hc0
    have hMne : pyStripL s.data ≠ [] := by
      intro hc
      unfold firstLineStartsToken at h4
      rw [show (pyStrip s).data = pyStripL s.data from rfl, hc, splitlinesL_nil] at h4
      cases h4
    have hbM : ∀ c ∈ pyStripL s.data, isLineBoundary c = true → c = '\n' :=
      fun c hc hbc => h2 c (mem_of_mem_pyStripL c _ hc) hbc
    have hlastM : (pyStripL s.data).getLast? ≠ some '\n' := by
      intro hgl
      have hws := pyStripL_getLast_not_ws s.data '\n' hgl
      exact absurd hws (by decide)
    have hpyM : pyStripL (pyStripL s.data) = pyStripL s.data := pyStripL_idem s.data hMne
    have hflM : firstLineStartsToken (String.mk (pyStripL s.data)) = true := h4
    have hfenceM : fenceSearch (pyStripL s.data) = none := fenceSearch_strip_none s.data h1
    have hext : extract_code_blocks s =
        extract_code_blocks (String.mk (pyStripL s.data)) := by
      unfold extract_code_blocks
      dsimp only
      rw [h1, hfenceM]
      dsimp only
      rw [hpyM]
    have hnorm : extract_code_blocks (String.mk (pyStripL s.data)) =
        String.mk (pyStripL s.data) :=
      extract_of_normalized _ hbM hlastM hpyM hflM hfenceM
    have hmain : extract_code_blocks s = String.mk (pyStripL s.data) := by
      rw [hext, hnorm]
    constructor
    · rw [hmain, hsr]
      rfl
    · rw [hmain]
      exact hnorm

set_option maxRecDepth 10000 in
/-- C7 counterexample: the string consisting of the token `import` followed
by a space contains no fence and its first line starts with a recognized
leading token, yet `extract_code_blocks` returns the empty string instead of
the string modulo trailing whitespace (`strip` eats the token's trailing
space, so the line-trimming loop discards the line). -/
theorem extract_code_blocks_not_id_on_clean :
    fenceSearch ("import ".data) = none ∧
    firstLineStartsToken "import " = true ∧
    extract_code_blocks "import " = "" ∧
    pyRstrip "import " = "import" ∧
    extract_code_blocks "import " ≠ pyRstrip "import " := by
  exact ⟨by decide, by decide, by decide, by decide, by decide⟩

set_option maxRecDepth 10000 in
theorem extract_code_blocks_clean_witness :
    extract_code_blocks "import os\nx = 1" = pyRstrip "import os\nx = 1" ∧
    extract_code_blocks (extract_code_blocks "import os\nx = 1") =
      extract_code_blocks "import os\nx = 1" :=
  extract_code_blocks_clean "import os\nx = 1" (by decide) (by decide)
    (by decide) (by decide)
